import Mathlib

/-
Verification of the batch validation pipeline of AI_datavalidator.py:
field validators (email, password, date, phone), the record validator,
the batch processor with running statistics, and the pattern summarizer.
Strings are modelled as Lean Strings (sequences of Unicode code points,
matching Python str); character classes from the regexes are modelled on
their ASCII meaning. The current moment used by the date validator is an
injected parameter.
-/

namespace DataValidator

/-- Substring test: does the list s start with pat. -/
def startsWithList : List Char → List Char → Bool
  | [], _ => true
  | _ :: _, [] => false
  | a :: as, b :: bs => a == b && startsWithList as bs

/-- Python substring containment: pat occurs contiguously inside s
(the empty pattern is contained in everything). -/
def containsList (pat : List Char) : List Char → Bool
  | [] => startsWithList pat []
  | c :: t => startsWithList pat (c :: t) || containsList pat t

/-- Python str.lower restricted to ASCII, applied characterwise. -/
def lowered (s : String) : List Char := s.data.map Char.toLower

/-- Character class of the local part of the email regex:
alphanumerics and the punctuation . _ % + - . -/
def isLocalChar (c : Char) : Bool :=
  c.isAlphanum || c == '.' || c == '_' || c == '%' || c == '+' || c == '-'

/-- Character class of the domain part of the email regex:
alphanumerics, dot and hyphen. -/
def isDomainChar (c : Char) : Bool :=
  c.isAlphanum || c == '.' || c == '-'

/-- Matcher for the email regex without the trailing-newline allowance:
the string must be local@domain.tld with a nonempty local part of
isLocalChar characters before the first at sign, a nonempty domain of
isDomainChar characters, a dot, and a tld of at least two letters
running to the end. The tld is read off as the maximal alphabetic
suffix, which is the only decomposition the regex can use because the
tld may not contain a dot and runs to the end of the string. -/
def emailCoreMatch (cs : List Char) : Bool :=
  let lcl := cs.takeWhile (· != '@')
  let rest := cs.dropWhile (· != '@')
  let dom := rest.drop 1
  let rdom := dom.reverse
  let tld := rdom.takeWhile Char.isAlpha
  let rest2 := rdom.dropWhile Char.isAlpha
  let drev := rest2.drop 1
  !rest.isEmpty && !lcl.isEmpty && lcl.all isLocalChar
    && decide (2 ≤ tld.length) && (rest2.head? == some '.')
    && !drev.isEmpty && drev.all isDomainChar

/-- Python re dollar anchor: a match may also end just before one final
newline, so one trailing newline is stripped before the core match. -/
def stripNl (cs : List Char) : List Char :=
  match cs.reverse with
  | [] => cs
  | c :: rest => if c == '\n' then rest.reverse else cs

/-- The full pattern of validate_email, as re.match with the dollar
anchor behaves on Python strings. -/
def emailRegexMatchL (cs : List Char) : Bool :=
  emailCoreMatch (stripNl cs)

/-- The suspicious substrings scanned by validate_email. -/
def suspiciousPatterns : List String := ["spam", "fake", "test", "temp"]

/-- Does the lowercased email contain a suspicious substring. -/
def emailSuspicious (email : String) : Bool :=
  suspiciousPatterns.any fun pat => containsList pat.data (lowered email)

/-- validate_email from the source: regex shape check, then the
suspicious-substring heuristic, with the three literal messages. -/
def validate_email (email : String) : Bool × String :=
  if emailRegexMatchL email.data then
    if emailSuspicious email then (false, "Email appears suspicious")
    else (true, "Valid email")
  else (false, "Invalid email format")

/-- The fixed punctuation set of the special-character check. -/
def specialChars : List Char := "!@#$%^&*(),.?\x22:\x7b\x7d|<>".data

/-- The common password substrings penalized by validate_password. -/
def commonPatterns : List String := ["123456", "password", "qwerty", "admin"]

/-- Uppercase-letter check of validate_password. -/
def has_uppercase (p : String) : Bool := p.data.any Char.isUpper

/-- Lowercase-letter check of validate_password. -/
def has_lowercase (p : String) : Bool := p.data.any Char.isLower

/-- Digit check of validate_password. -/
def has_digit (p : String) : Bool := p.data.any Char.isDigit

/-- Special-character check of validate_password. -/
def has_special (p : String) : Bool := p.data.any fun c => specialChars.contains c

/-- Common-pattern check of validate_password on the lowercased input. -/
def has_common_pattern (p : String) : Bool :=
  commonPatterns.any fun pat => containsList pat.data (lowered p)

/-- The rating classification chain of validate_password. -/
def ratingOf (score : ℚ) : String :=
  if 90 ≤ score then "Excellent"
  else if 70 ≤ score then "Good"
  else if 50 ≤ score then "Fair"
  else "Weak"

/-- The dictionary returned by validate_password. The score is a small
dyadic rational, which Python floats represent exactly, so ℚ is a
faithful model of the float arithmetic involved. -/
structure ScoreReport where
  score : ℚ
  rating : String
  feedback : List String
  checks_passed : ℕ
  total_checks : ℕ
deriving DecidableEq

/-- validate_password from the source: length bonus of 25, four
character-class checks of 75/4 each applied in dictionary order
(uppercase, lowercase, digits, special), the common-pattern penalty of
30, then the rating classification. -/
def validate_password (password : String) (min_length : ℕ) : ScoreReport :=
  let lenOk := min_length ≤ password.length
  let score1 : ℚ := if lenOk then 25 else 0
  let feedback1 : List String :=
    if lenOk then []
    else ["Password should be at least " ++ toString min_length ++ " characters"]
  let score2 := if has_uppercase password then score1 + 75/4 else score1
  let feedback2 :=
    if has_uppercase password then feedback1
    else feedback1 ++ ["Add at least one uppercase character"]
  let score3 := if has_lowercase password then score2 + 75/4 else score2
  let feedback3 :=
    if has_lowercase password then feedback2
    else feedback2 ++ ["Add at least one lowercase character"]
  let score4 := if has_digit password then score3 + 75/4 else score3
  let feedback4 :=
    if has_digit password then feedback3
    else feedback3 ++ ["Add at least one digits character"]
  let score5 := if has_special password then score4 + 75/4 else score4
  let feedback5 :=
    if has_special password then feedback4
    else feedback4 ++ ["Add at least one special character"]
  let score6 := if has_common_pattern password then score5 - 30 else score5
  let feedback6 :=
    if has_common_pattern password then feedback5 ++ ["Avoid common password patterns"]
    else feedback5
  { score := score6
    rating := ratingOf score6
    feedback := feedback6
    checks_passed :=
      (if has_uppercase password then 1 else 0) + (if has_lowercase password then 1 else 0)
        + (if has_digit password then 1 else 0) + (if has_special password then 1 else 0)
    total_checks := 4 }

/-- The date part of a Python datetime produced by strptime with format
percent-Y dash percent-m dash percent-d; the time part is always
midnight there. -/
structure PyDate where
  year : ℕ
  month : ℕ
  day : ℕ
deriving DecidableEq

/-- Gregorian leap-year rule, as datetime uses. -/
def isLeap (y : ℕ) : Bool := y % 4 == 0 && (y % 100 != 0 || y % 400 == 0)

/-- Number of days of a month, as the datetime constructor checks. -/
def daysInMonth (y m : ℕ) : ℕ :=
  if m == 2 then (if isLeap y then 29 else 28)
  else if m == 4 || m == 6 || m == 9 || m == 11 then 30
  else 31

/-- Numeric value of an ASCII digit. -/
def digitVal (c : Char) : ℕ := c.toNat - 48

/-- The month field of the strptime regex: 1[0-2] or 0[1-9] or [1-9],
tried in that order, returning the month and the unconsumed input. -/
def parseMonth : List Char → Option (ℕ × List Char)
  | '1' :: c :: rest =>
    if c == '0' || c == '1' || c == '2' then some (10 + digitVal c, rest)
    else some (1, c :: rest)
  | '0' :: c :: rest =>
    if c.isDigit && c != '0' then some (digitVal c, rest) else none
  | c :: rest =>
    if c.isDigit && c != '0' then some (digitVal c, rest) else none
  | [] => none

/-- The day field of the strptime regex, 3[01] or [12]digit or 0[1-9]
or [1-9], which must consume the whole remaining input because
strptime rejects unconverted trailing data. -/
def parseDay : List Char → Option ℕ
  | ['3', c] => if c == '0' || c == '1' then some (30 + digitVal c) else none
  | ['3'] => some 3
  | [a, b] =>
    if (a == '1' || a == '2') && b.isDigit then some (10 * digitVal a + digitVal b)
    else if a == '0' && b.isDigit && b != '0' then some (digitVal b)
    else none
  | [a] => if a.isDigit && a != '0' then some (digitVal a) else none
  | _ => none

/-- strptime with format percent-Y dash percent-m dash percent-d: four
digits of year, a dash, the month field, a dash, the day field ending
the string; then the datetime constructor checks that the year is at
least 1 and the day fits the month. Any failure is the ValueError that
validate_date catches. -/
def parseDateStr : List Char → Option PyDate
  | y1 :: y2 :: y3 :: y4 :: '-' :: rest =>
    if y1.isDigit && y2.isDigit && y3.isDigit && y4.isDigit then
      let y := ((digitVal y1 * 10 + digitVal y2) * 10 + digitVal y3) * 10 + digitVal y4
      match parseMonth rest with
      | some (m, '-' :: rest2) =>
        match parseDay rest2 with
        | some d => if 1 ≤ y && d ≤ daysInMonth y m then some ⟨y, m, d⟩ else none
        | none => none
      | _ => none
    else none
  | _ => none

/-- Strict calendar order on dates. A parsed date fixed at midnight is
strictly after the current datetime exactly when its calendar day is
strictly after the current calendar day. -/
def dateAfter (a b : PyDate) : Bool :=
  b.year < a.year
    || (a.year == b.year && (b.month < a.month || (a.month == b.month && b.day < a.day)))

/-- validate_date from the source, with the wall clock injected as the
now parameter: parse against the fixed format, reject future dates,
return the boolean together with the parsed date or none. -/
def validate_date (now : PyDate) (date_str : String) : Bool × Option PyDate :=
  match parseDateStr date_str.data with
  | none => (false, none)
  | some d => if dateAfter d now then (false, none) else (true, some d)

/-- validate_phone from the source: strip every non-digit, then accept
exactly when 10 to 15 digits remain. -/
def validate_phone (phone : String) : Bool :=
  let digits := (phone.data.filter Char.isDigit).length
  10 ≤ digits && digits ≤ 15

/-- One input record: a Python dict from field name to raw string,
modelled as an association list in insertion order. -/
abbrev PyRecord := List (String × String)

/-- The value stored under the valid key of a field verdict. For email,
password and phone it is a Python bool; for date the dispatch line of
validate_record assigns the whole pair returned by validate_date. -/
inductive PyValid where
  | b : Bool → PyValid
  | tup : Bool → Option PyDate → PyValid
deriving DecidableEq

/-- Python truthiness of a valid entry, as the all() aggregation in
process_batch evaluates it: a bool is itself, and a two-element tuple
is always truthy. -/
def PyValid.truthy : PyValid → Bool
  | .b v => v
  | .tup _ _ => true

/-- The value stored under the details key of a field verdict: None,
the email message string, or the full password score report. -/
inductive PyDetail where
  | none : PyDetail
  | msg : String → PyDetail
  | report : ScoreReport → PyDetail
deriving DecidableEq

/-- One field verdict as validate_record builds it. -/
structure FieldVerdict where
  valid : PyValid
  details : PyDetail
deriving DecidableEq

/-- validate_record from the source. Fields outside the four known
validation rules are skipped. For password the verdict is the score
threshold with the full report as details. The remaining branch of the
source unpacks the validator result for email (keeping the message as
details) and pairs the raw result with None otherwise, so for date the
whole returned pair lands in the valid slot and details is None, and
for phone the boolean lands in the valid slot with details None. -/
def validate_record (now : PyDate) (record : PyRecord) : List (String × FieldVerdict) :=
  record.filterMap fun fv =>
    if fv.1 == "password" then
      some (fv.1, ⟨PyValid.b (decide ((50 : ℚ) ≤ (validate_password fv.2 8).score)),
                   PyDetail.report (validate_password fv.2 8)⟩)
    else if fv.1 == "email" then
      some (fv.1, ⟨PyValid.b (validate_email fv.2).1, PyDetail.msg (validate_email fv.2).2⟩)
    else if fv.1 == "date" then
      some (fv.1, ⟨PyValid.tup (validate_date now fv.2).1 (validate_date now fv.2).2,
                   PyDetail.none⟩)
    else if fv.1 == "phone" then
      some (fv.1, ⟨PyValid.b (validate_phone fv.2), PyDetail.none⟩)
    else none

/-- The all() aggregation of process_batch over the valid entries of
one validated record. -/
def record_passed (verdicts : List (String × FieldVerdict)) : Bool :=
  verdicts.all fun fv => fv.2.valid.truthy

/-- The running statistics dict of the DataValidator instance. -/
structure Stats where
  total : ℕ
  passed : ℕ
  failed : ℕ
deriving DecidableEq

/-- The statistics a fresh DataValidator starts with. -/
def initStats : Stats := ⟨0, 0, 0⟩

/-- process_batch from the source: validate each record in order,
append its verdict map to the results, and bump total plus either
passed or failed according to the all() aggregation. The statistics
are threaded explicitly instead of living in mutable instance state. -/
def process_batch (now : PyDate) (stats : Stats) (data : List PyRecord) :
    Stats × List (List (String × FieldVerdict)) :=
  match data with
  | [] => (stats, [])
  | record :: rest =>
    let validated := validate_record now record
    let stats1 :=
      if record_passed validated then
        { total := stats.total + 1, passed := stats.passed + 1, failed := stats.failed }
      else
        { total := stats.total + 1, passed := stats.passed, failed := stats.failed + 1 }
    let out := process_batch now stats1 rest
    (out.1, validated :: out.2)

/-- The dict returned by get_statistics: the three counters, and the
pass_rate key that is only present when total is nonzero. -/
structure StatsReport where
  total : ℕ
  passed : ℕ
  failed : ℕ
  pass_rate : Option ℚ
deriving DecidableEq

/-- get_statistics from the source: return the counters unchanged when
total is zero, otherwise add pass_rate as passed over total times 100. -/
def get_statistics (s : Stats) : StatsReport :=
  if s.total == 0 then ⟨s.total, s.passed, s.failed, Option.none⟩
  else ⟨s.total, s.passed, s.failed, some ((s.passed : ℚ) / (s.total : ℚ) * 100)⟩

/-- Does the email contain an at sign, the guard of the domain
histogram in detect_data_patterns. -/
def emailHasAt (s : String) : Bool := s.data.any (· == '@')

/-- The domain extracted by email.split at-sign index 1: the segment
strictly between the first at sign and the following at sign or the
end of the string. -/
def domainOfEmail (s : String) : String :=
  String.mk (((s.data.dropWhile (· != '@')).drop 1).takeWhile (· != '@'))

/-- Increment of the domain histogram dict: bump an existing key in
place or append a new key at the end, as dict insertion does. -/
def bumpDomain : List (String × ℕ) → String → List (String × ℕ)
  | [], d => [(d, 1)]
  | (k, n) :: rest, d =>
    if k == d then (k, n + 1) :: rest else (k, n) :: bumpDomain rest d

/-- Lookup of a key in the histogram dict, zero when absent. -/
def histLookup : List (String × ℕ) → String → ℕ
  | [], _ => 0
  | (k, n) :: rest, d => if k == d then n else histLookup rest d

/-- The loop of detect_data_patterns accumulating the domain histogram
and the password length sequence over the records in order. -/
def patternsCore (acc : List (String × ℕ) × List ℕ) :
    List PyRecord → List (String × ℕ) × List ℕ
  | [] => acc
  | r ::
    rs =>
    let acc1 :=
      match r.lookup "email" with
      | some e =>
        if emailHasAt e then (bumpDomain acc.1 (domainOfEmail e), acc.2) else acc
      | Option.none => acc
    let acc2 :=
      match r.lookup "password" with
      | some p => (acc1.1, acc1.2 ++ [p.length])
      | Option.none => acc1
    patternsCore acc2 rs

/-- The dict returned by detect_data_patterns, with the never-updated
date_range entry kept for fidelity. -/
structure PatternSummary where
  email_domains : List (String × ℕ)
  password_lengths : List ℕ
  password_stats : Option (ℚ × ℕ × ℕ)
  date_range : Option PyDate × Option PyDate
deriving DecidableEq

/-- detect_data_patterns from the source: empty input yields the empty
summary, otherwise the histogram and length sequence come from the
loop, and the average, minimum and maximum of the lengths are attached
exactly when at least one password length was collected. -/
def detect_data_patterns (data : List PyRecord) : PatternSummary :=
  if data.isEmpty then ⟨[], [], Option.none, (Option.none, Option.none)⟩
  else
    let core := patternsCore ([], []) data
    let stats :=
      match core.2 with
      | [] => Option.none
      | l :: ls =>
        some ((((l :: ls).foldl (· + ·) 0 : ℕ) : ℚ) / (((l :: ls).length : ℕ) : ℚ),
              ls.foldl Nat.min l, ls.foldl Nat.max l)
    ⟨core.1, core.2, stats, (Option.none, Option.none)⟩

/-- The shape local at-sign domain dot tld that the specification
describes for a syntactically valid email: a nonempty local part of
isLocalChar characters, a nonempty domain of isDomainChar characters,
a dot, and a tld of at least two letters ending the string. -/
def EmailShape (cs : List Char) : Prop :=
  ∃ l d t, cs = l ++ '@' :: (d ++ '.' :: t)
    ∧ l ≠ [] ∧ (∀ c ∈ l, isLocalChar c = true)
    ∧ d ≠ [] ∧ (∀ c ∈ d, isDomainChar c = true)
    ∧ 2 ≤ t.length ∧ (∀ c ∈ t, c.isAlpha = true)

/-- Every character of a string of EmailShape lies in one of the
character classes of the shape. -/
def charInShape (c : Char) : Bool :=
  isLocalChar c || c == '@' || isDomainChar c || c == '.' || c.isAlpha

/-- Modelled from the claim wording of the pattern summarizer: the
whole substring after the first at sign, used to exhibit where the
source deviates by stopping at the next at sign. -/
def specAfterFirstAt (s : String) : String :=
  String.mk ((s.data.dropWhile (· != '@')).drop 1)

theorem takeWhile_all_append {α : Type} (p : α → Bool) (l : List α) (x : α) (xs : List α)
    (hl : ∀ c ∈ l, p c = true) (hx : p x = false) : (l ++ x :: xs).takeWhile p = l := by
  induction l with
  | nil => simp [List.takeWhile_cons, hx]
  | cons a as ih =>
    have ha : p a = true := hl a (List.mem_cons_self a as)
    simp only [List.cons_append, List.takeWhile_cons, ha, if_true]
    rw [ih fun c hc => hl c (List.mem_cons_of_mem a hc)]

theorem dropWhile_all_append {α : Type} (p : α → Bool) (l : List α) (x : α) (xs : List α)
    (hl : ∀ c ∈ l, p c = true) (hx : p x = false) : (l ++ x :: xs).dropWhile p = x :: xs := by
  induction l with
  | nil => simp [List.dropWhile_cons, hx]
  | cons a as ih =>
    have ha : p a = true := hl a (List.mem_cons_self a as)
    simp only [List.cons_append, List.dropWhile_cons, ha, if_true]
    exact ih fun c hc => hl c (List.mem_cons_of_mem a hc)

theorem dropWhile_head_false {α : Type} (p : α → Bool) (l : List α) (a : α) (t : List α)
    (h : l.dropWhile p = a :: t) : p a = false := by
  induction l with
  | nil => simp [List.dropWhile] at h
  | cons b bs ih =>
    rw [List.dropWhile_cons] at h
    by_cases hb : p b = true
    · rw [if_pos hb] at h
      exact ih h
    · rw [if_neg hb] at h
      injection h with h1 h2
      subst h1
      simpa using hb

/-- A local character is never the at sign. -/
theorem isLocalChar_ne_at {c : Char} (h : isLocalChar c = true) : (c != '@') = true := by
  rcases eq_or_ne c '@' with rfl | hne
  · simp [isLocalChar] at h
  · simpa using hne

/-- The executable regex matcher without the newline allowance accepts
exactly the strings of the specified email shape. -/
theorem emailCoreMatch_iff (cs : List Char) : emailCoreMatch cs = true ↔ EmailShape cs := by
  constructor
  · intro h
    simp only [emailCoreMatch, Bool.and_eq_true, Bool.not_eq_true',
      decide_eq_true_eq, beq_iff_eq, List.all_eq_true] at h
    obtain ⟨⟨⟨⟨⟨⟨hrest, hlcl⟩, hlocal⟩, htld⟩, hdot⟩, hdrev⟩, hdom⟩ := h
    rcases hr : cs.dropWhile (· != '@') with _ | ⟨r0, rtail⟩
    · rw [hr] at hrest; simp at hrest
    have hr0 : r0 = '@' := by
      have := dropWhile_head_false (· != '@') cs r0 rtail hr
      simpa using this
    subst hr0
    simp only [hr, List.drop_succ_cons, List.drop_zero] at htld hdot hdrev hdom
    rcases h2 : (rtail.reverse.dropWhile Char.isAlpha) with _ | ⟨s0, s1⟩
    · rw [h2] at hdot; simp at hdot
    have hs0 : s0 = '.' := by
      rw [h2] at hdot; simpa using hdot
    subst hs0
    simp only [h2, List.drop_succ_cons, List.drop_zero] at hdrev hdom
    have hsplit : rtail.reverse.takeWhile Char.isAlpha ++ '.' :: s1 = rtail.reverse := by
      rw [← h2]; exact List.takeWhile_append_dropWhile _ _
    have h4 : (rtail.reverse.takeWhile Char.isAlpha ++ '.' :: s1).reverse = rtail := by
      rw [hsplit, List.reverse_reverse]
    have h5 : (rtail.reverse.takeWhile Char.isAlpha ++ '.' :: s1).reverse
        = s1.reverse ++ '.' :: (rtail.reverse.takeWhile Char.isAlpha).reverse := by
      rw [List.reverse_append, List.reverse_cons, List.append_assoc]
      simp
    have hrtail : rtail = s1.reverse ++ '.' :: (rtail.reverse.takeWhile Char.isAlpha).reverse :=
      h4.symm.trans h5
    refine ⟨cs.takeWhile (· != '@'), s1.reverse, (rtail.reverse.takeWhile Char.isAlpha).reverse,
      ?_, ?_, ?_, ?_, ?_, ?_, ?_⟩
    · conv_lhs => rw [← List.takeWhile_append_dropWhile (· != '@') cs, hr]
      rw [← hrtail]
    · intro hnil; rw [hnil] at hlcl; simp at hlcl
    · intro c hc; exact hlocal c hc
    · intro hnil
      have hs1 : s1 = [] := by simpa [List.reverse_eq_nil_iff] using hnil
      rw [hs1] at hdrev
      simp at hdrev
    · intro c hc
      exact hdom c (List.mem_reverse.mp hc)
    · simpa using htld
    · intro c hc
      exact List.mem_takeWhile_imp (List.mem_reverse.mp hc)
  · rintro ⟨l, d, t, rfl, hl, hlocal, hd, hdomain, ht2, halpha⟩
    have hne : ∀ c ∈ l, (c != '@') = true := fun c hc => isLocalChar_ne_at (hlocal c hc)
    have hat : (('@' : Char) != '@') = false := by decide
    have htake : ((l ++ '@' :: (d ++ '.' :: t)).takeWhile (· != '@')) = l :=
      takeWhile_all_append _ l '@' _ hne hat
    have hdrop : ((l ++ '@' :: (d ++ '.' :: t)).dropWhile (· != '@')) = '@' :: (d ++ '.' :: t) :=
      dropWhile_all_append _ l '@' _ hne hat
    have hrdom : (d ++ '.' :: t).reverse = t.reverse ++ '.' :: d.reverse := by
      rw [List.reverse_append, List.reverse_cons, List.append_assoc]
      simp
    have halpharev : ∀ c ∈ t.reverse, Char.isAlpha c = true := by
      intro c hc; exact halpha c (List.mem_reverse.mp hc)
    have hdotalpha : Char.isAlpha '.' = false := by decide
    have htake2 : ((d ++ '.' :: t).reverse.takeWhile Char.isAlpha) = t.reverse := by
      rw [hrdom]; exact takeWhile_all_append _ _ _ _ halpharev hdotalpha
    have hdrop2 : ((d ++ '.' :: t).reverse.dropWhile Char.isAlpha) = '.' :: d.reverse := by
      rw [hrdom]; exact dropWhile_all_append _ _ _ _ halpharev hdotalpha
    obtain ⟨a, l2, rfl⟩ := List.exists_cons_of_ne_nil hl
    obtain ⟨b, d2, rfl⟩ := List.exists_cons_of_ne_nil hd
    simp only [emailCoreMatch, htake, hdrop, List.drop_succ_cons, List.drop_zero,
      htake2, hdrop2, Bool.and_eq_true, Bool.not_eq_true', decide_eq_true_eq,
      beq_iff_eq, List.all_eq_true]
    refine ⟨⟨⟨⟨⟨⟨by simp, by simp⟩, hlocal⟩, ?_⟩, by simp⟩, by simp⟩, ?_⟩
    · simpa using ht2
    · intro c hc
      exact hdomain c (List.mem_reverse.mp hc)

/-- Every character of a string of the email shape belongs to one of
the character classes the shape is built from. -/
theorem emailShape_chars {cs : List Char} (h : EmailShape cs) :
    ∀ x ∈ cs, charInShape x = true := by
  obtain ⟨l, d, t, rfl, _, hlocal, _, hdomain, _, halpha⟩ := h
  intro x hx
  simp only [List.mem_append, List.mem_cons] at hx
  rcases hx with hx | rfl | hx | rfl | hx
  · simp [charInShape, hlocal x hx]
  · simp [charInShape]
  · simp [charInShape, hdomain x hx]
  · simp [charInShape]
  · simp [charInShape, halpha x hx]

/-- The full matcher, newline allowance included, accepts exactly the
shaped strings and the shaped strings followed by one newline. -/
theorem emailRegexMatchL_iff (cs : List Char) :
    emailRegexMatchL cs = true ↔
      EmailShape cs ∨ ∃ cs2, cs = cs2 ++ ['\n'] ∧ EmailShape cs2 := by
  have hnl : Char.isAlpha '\n' = false := by decide
  rcases hrev : cs.reverse with _ | ⟨c, rest⟩
  · have hcs : cs = [] := List.reverse_eq_nil_iff.mp hrev
    subst hcs
    simp only [emailRegexMatchL, stripNl, List.reverse_nil]
    constructor
    · intro h; simp [emailCoreMatch] at h
    · rintro (⟨l, d, t, habs, -⟩ | ⟨cs2, habs, -⟩)
      · exact absurd habs.symm (by simp)
      · exact absurd habs.symm (by simp)
  · have hcs : cs = rest.reverse ++ [c] := by
      have h0 := congrArg List.reverse hrev
      rw [List.reverse_reverse] at h0
      rw [h0, List.reverse_cons]
    by_cases hc : c = '\n'
    · subst hc
      have hstrip : stripNl cs = rest.reverse := by
        simp [stripNl, hrev]
      rw [emailRegexMatchL, hstrip, emailCoreMatch_iff]
      constructor
      · intro h
        exact Or.inr ⟨rest.reverse, hcs, h⟩
      · rintro (h | ⟨cs2, heq, h2⟩)
        · exfalso
          have hmem : ('\n' : Char) ∈ cs := by rw [hcs]; simp
          have := emailShape_chars h '\n' hmem
          exact absurd this (by decide)
        · have h6 := congrArg List.reverse heq
          rw [hrev, List.reverse_append] at h6
          simp only [List.reverse_cons, List.reverse_nil, List.nil_append,
            List.singleton_append] at h6
          injection h6 with h7 h8
          have h9 : cs2 = rest.reverse := by rw [h8, List.reverse_reverse]
          exact h9 ▸ h2
    · have hstrip : stripNl cs = cs := by
        simp only [stripNl, hrev]
        simp [hc]
      rw [emailRegexMatchL, hstrip, emailCoreMatch_iff]
      constructor
      · exact Or.inl
      · rintro (h | ⟨cs2, heq, h2⟩)
        · exact h
        · exfalso
          apply hc
          have h6 := congrArg List.reverse heq
          rw [hrev, List.reverse_append] at h6
          simp only [List.reverse_cons, List.reverse_nil, List.nil_append,
            List.singleton_append] at h6
          injection h6 with h7 h8

/-- One step of the statistics update of process_batch. -/
theorem process_batch_cons (now : PyDate) (s : Stats) (r : PyRecord) (rs : List PyRecord) :
    (process_batch now s (r :: rs)).1 =
      (process_batch now
        (if record_passed (validate_record now r) then
          { total := s.total + 1, passed := s.passed + 1, failed := s.failed }
        else
          { total := s.total + 1, passed := s.passed, failed := s.failed + 1 }) rs).1 := by
  simp only [process_batch]

/-- The batch processor increments total by the batch length, splits
the increment between passed and failed, and never decreases the
passed and failed counters. -/
theorem process_batch_stats_rel (now : PyDate) (data : List PyRecord) (s : Stats) :
    (process_batch now s data).1.total = s.total + data.length
      ∧ (process_batch now s data).1.passed + (process_batch now s data).1.failed
          = s.passed + s.failed + data.length
      ∧ s.passed ≤ (process_batch now s data).1.passed
      ∧ s.failed ≤ (process_batch now s data).1.failed := by
  induction data generalizing s with
  | nil => simp [process_batch]
  | cons r rs ih =>
    rw [process_batch_cons]
    simp only [List.length_cons]
    by_cases h : record_passed (validate_record now r) = true
    · rw [if_pos h]
      obtain ⟨h1, h2, h3, h4⟩ := ih ⟨s.total + 1, s.passed + 1, s.failed⟩
      refine ⟨?_, ?_, ?_, ?_⟩
      · rw [h1]
        show s.total + 1 + rs.length = s.total + (rs.length + 1)
        omega
      · rw [h2]
        show s.passed + 1 + s.failed + rs.length = s.passed + s.failed + (rs.length + 1)
        omega
      · exact le_trans (Nat.le_succ s.passed) h3
      · exact h4
    · rw [if_neg h]
      obtain ⟨h1, h2, h3, h4⟩ := ih ⟨s.total + 1, s.passed, s.failed + 1⟩
      refine ⟨?_, ?_, ?_, ?_⟩
      · rw [h1]
        show s.total + 1 + rs.length = s.total + (rs.length + 1)
        omega
      · rw [h2]
        show s.passed + (s.failed + 1) + rs.length = s.passed + s.failed + (rs.length + 1)
        omega
      · exact h3
      · exact le_trans (Nat.le_succ s.failed) h4

/-- Bumping a key in the histogram raises exactly that count by one. -/
theorem histLookup_bumpDomain (hist : List (String × ℕ)) (k d : String) :
    histLookup (bumpDomain hist k) d = histLookup hist d + (if k == d then 1 else 0) := by
  induction hist with
  | nil =>
    by_cases h : k = d
    · subst h; simp [bumpDomain, histLookup]
    · simp [bumpDomain, histLookup, h]
  | cons p rest ih =>
    obtain ⟨k0, n0⟩ := p
    by_cases h0 : k0 = k
    · subst h0
      by_cases h1 : k0 = d
      · subst h1; simp [bumpDomain, histLookup]
      · simp [bumpDomain, histLookup, h1]
    · by_cases h1 : k0 = d
      · subst h1
        have hkd : ¬ k = k0 := fun he => h0 he.symm
        simp [bumpDomain, histLookup, h0, hkd]
      · simp [bumpDomain, histLookup, h0, h1, ih]

/-- The password-length component of the summarizer loop appends the
lengths of the password fields of the records in order. -/
theorem patternsCore_snd (data : List PyRecord) (acc : List (String × ℕ) × List ℕ) :
    (patternsCore acc data).2
      = acc.2 ++ data.filterMap (fun r => (r.lookup "password").map String.length) := by
  induction data generalizing acc with
  | nil => simp [patternsCore]
  | cons r rs ih =>
    simp only [patternsCore]
    rcases he : r.lookup "email" with _ | e
    · rcases hp : r.lookup "password" with _ | p <;>
        simp [he, hp, ih, List.filterMap_cons]
    · by_cases hat : emailHasAt e = true <;>
        rcases hp : r.lookup "password" with _ | p <;>
          simp [he, hp, hat, ih, List.filterMap_cons]

/-- The histogram component of the summarizer loop counts, per domain,
the records whose email field contains an at sign and maps to that
domain. -/
theorem patternsCore_fst (data : List PyRecord) (acc : List (String × ℕ) × List ℕ)
    (d : String) :
    histLookup (patternsCore acc data).1 d
      = histLookup acc.1 d
        + data.countP (fun r =>
            match r.lookup "email" with
            | some e => emailHasAt e && (domainOfEmail e == d)
            | Option.none => false) := by
  induction data generalizing acc with
  | nil => simp [patternsCore]
  | cons r rs ih =>
    simp only [patternsCore, List.countP_cons]
    rcases he : r.lookup "email" with _ | e
    · rcases hp : r.lookup "password" with _ | p <;> simp [he, hp, ih]
    · by_cases hat : emailHasAt e = true
      · by_cases hdd : domainOfEmail e = d
        · subst hdd
          rcases hp : r.lookup "password" with _ | p <;>
            simp [he, hp, hat, ih, histLookup_bumpDomain] <;> omega
        · have hbne : (domainOfEmail e == d) = false := by simpa using hdd
          rcases hp : r.lookup "password" with _ | p <;>
            simp [he, hp, hat, hbne, ih, histLookup_bumpDomain]
      · have hat2 : emailHasAt e = false := by simpa using hat
        rcases hp : r.lookup "password" with _ | p <;>
          simp [he, hp, hat2, ih]

/-- Folding Nat.min never rises above the seed. -/
theorem foldl_min_le_seed (ls : List ℕ) : ∀ a : ℕ, ls.foldl Nat.min a ≤ a := by
  induction ls with
  | nil => intro a; simp
  | cons b bs ih =>
    intro a
    calc (b :: bs).foldl Nat.min a = bs.foldl Nat.min (Nat.min a b) := rfl
    _ ≤ Nat.min a b := ih (Nat.min a b)
    _ ≤ a := Nat.min_le_left a b

/-- The Nat.min fold is a lower bound of the seed and every element. -/
theorem foldl_min_le (ls : List ℕ) : ∀ a x : ℕ, x ∈ a :: ls → ls.foldl Nat.min a ≤ x := by
  induction ls with
  | nil =>
    intro a x hx
    have : x = a := by simpa using hx
    subst this; simp
  | cons b bs ih =>
    intro a x hx
    rcases List.mem_cons.mp hx with rfl | hx2
    · calc (b :: bs).foldl Nat.min x = bs.foldl Nat.min (Nat.min x b) := rfl
      _ ≤ Nat.min x b := foldl_min_le_seed bs (Nat.min x b)
      _ ≤ x := Nat.min_le_left x b
    · rcases List.mem_cons.mp hx2 with rfl | hx3
      · calc (x :: bs).foldl Nat.min a = bs.foldl Nat.min (Nat.min a x) := rfl
        _ ≤ Nat.min a x := foldl_min_le_seed bs (Nat.min a x)
        _ ≤ x := Nat.min_le_right a x
      · exact ih (Nat.min a b) x (List.mem_cons_of_mem _ hx3)

/-- Folding Nat.max never falls below the seed. -/
theorem le_foldl_max_seed (ls : List ℕ) : ∀ a : ℕ, a ≤ ls.foldl Nat.max a := by
  induction ls with
  | nil => intro a; simp
  | cons b bs ih =>
    intro a
    calc a ≤ Nat.max a b := Nat.le_max_left a b
    _ ≤ bs.foldl Nat.max (Nat.max a b) := ih (Nat.max a b)
    _ = (b :: bs).foldl Nat.max a := rfl

/-- The Nat.max fold is an upper bound of the seed and every element. -/
theorem le_foldl_max (ls : List ℕ) : ∀ a x : ℕ, x ∈ a :: ls → x ≤ ls.foldl Nat.max a := by
  induction ls with
  | nil =>
    intro a x hx
    have : x = a := by simpa using hx
    subst this; simp
  | cons b bs ih =>
    intro a x hx
    rcases List.mem_cons.mp hx with rfl | hx2
    · calc x ≤ Nat.max x b := Nat.le_max_left x b
      _ ≤ bs.foldl Nat.max (Nat.max x b) := le_foldl_max_seed bs (Nat.max x b)
      _ = (b :: bs).foldl Nat.max x := rfl
    · rcases List.mem_cons.mp hx2 with rfl | hx3
      · calc x ≤ Nat.max a x := Nat.le_max_right a x
        _ ≤ bs.foldl Nat.max (Nat.max a x) := le_foldl_max_seed bs (Nat.max a x)
        _ = (x :: bs).foldl Nat.max a := rfl
      · exact ih (Nat.max a b) x (List.mem_cons_of_mem _ hx3)

/-- The rating chain sends a score to each label exactly on the band
of scores between the corresponding thresholds. -/
theorem ratingOf_cases (sc : ℚ) :
    (ratingOf sc = "Excellent" ↔ 90 ≤ sc)
    ∧ (ratingOf sc = "Good" ↔ 70 ≤ sc ∧ sc < 90)
    ∧ (ratingOf sc = "Fair" ↔ 50 ≤ sc ∧ sc < 70)
    ∧ (ratingOf sc = "Weak" ↔ sc < 50) := by
  unfold ratingOf
  split_ifs with h90 h70 h50
  · refine ⟨by simpa using h90, ?_, ?_, ?_⟩
    · constructor
      · intro h; exact absurd h (by decide)
      · rintro ⟨h1, h2⟩; exact absurd h90 (not_le.mpr h2)
    · constructor
      · intro h; exact absurd h (by decide)
      · rintro ⟨h1, h2⟩; exact absurd h90 (not_le.mpr (h2.trans (by norm_num)))
    · constructor
      · intro h; exact absurd h (by decide)
      · intro h2; exact absurd h90 (not_le.mpr (h2.trans (by norm_num)))
  · have h90l : sc < 90 := not_le.mp h90
    refine ⟨?_, by simp [h70, h90l], ?_, ?_⟩
    · constructor
      · intro h; exact absurd h (by decide)
      · intro h; exact absurd h h90
    · constructor
      · intro h; exact absurd h (by decide)
      · rintro ⟨h1, h2⟩; exact absurd h70 (not_le.mpr h2)
    · constructor
      · intro h; exact absurd h (by decide)
      · intro h2; exact absurd h70 (not_le.mpr (h2.trans (by norm_num)))
  · have h70l : sc < 70 := not_le.mp h70
    refine ⟨?_, ?_, by simp [h50, h70l], ?_⟩
    · constructor
      · intro h; exact absurd h (by decide)
      · intro h; exact absurd h h90
    · constructor
      · intro h; exact absurd h (by decide)
      · rintro ⟨h1, h2⟩; exact absurd h1 h70
    · constructor
      · intro h; exact absurd h (by decide)
      · intro h2; exact absurd h50 (not_le.mpr h2)
  · have h50l : sc < 50 := not_le.mp h50
    refine ⟨?_, ?_, ?_, by simp [h50l]⟩
    · constructor
      · intro h; exact absurd h (by decide)
      · intro h; exact absurd h h90
    · constructor
      · intro h; exact absurd h (by decide)
      · rintro ⟨h1, h2⟩; exact absurd h1 h70
    · constructor
      · intro h; exact absurd h (by decide)
      · rintro ⟨h1, h2⟩; exact absurd h1 h50

/-- C1: the claim says a record is counted as passed iff every field
verdict has valid equal to true. The code contradicts it: for a record
whose only field is an invalid date, the verdict valid slot holds the
pair of false and no date, which is not the boolean true, yet the all()
aggregation treats the two-element tuple as truthy and the batch
processor counts the record as passed. -/
theorem record_with_invalid_date_counts_passed :
    (process_batch ⟨2026, 10, 12⟩ initStats [[("date", "2099-01-01")]]).1 = ⟨1, 1, 0⟩
    ∧ validate_record ⟨2026, 10, 12⟩ [("date", "2099-01-01")] =
        [("date", ⟨PyValid.tup false Option.none, PyDetail.none⟩)]
    ∧ PyValid.tup false Option.none ≠ PyValid.b true
    ∧ (PyValid.tup false Option.none).truthy = true :=
  ⟨by decide, by decide, by decide, by decide⟩

/-- C2: the claim says a date verdict carries valid as the boolean
result of date validation and detail as the parsed date when valid.
The code contradicts it: the dispatch line stores the whole pair
returned by validate_date in the valid slot, which is no boolean at
all, and always stores None in the details slot, discarding the parsed
date that validate_date returned. -/
theorem date_verdict_drops_parsed_date :
    validate_date ⟨2026, 10, 12⟩ "2020-01-15" = (true, some ⟨2020, 1, 15⟩)
    ∧ validate_record ⟨2026, 10, 12⟩ [("date", "2020-01-15")] =
        [("date", ⟨PyValid.tup true (some ⟨2020, 1, 15⟩), PyDetail.none⟩)]
    ∧ PyValid.tup true (some ⟨2020, 1, 15⟩) ≠ PyValid.b true
    ∧ PyValid.tup true (some ⟨2020, 1, 15⟩) ≠ PyValid.b false :=
  ⟨by decide, by decide, by decide, by decide⟩

/-- C3 counterexample: the claim says the email verdict has detail
equal to null with the diagnostic message discarded, but the record
validator stores the message string in the details slot. -/
theorem email_detail_not_null :
    validate_record ⟨2026, 10, 12⟩ [("email", "user1@example.com")] =
      [("email", ⟨PyValid.b true, PyDetail.msg "Valid email"⟩)]
    ∧ PyDetail.msg "Valid email" ≠ PyDetail.none :=
  ⟨by decide, by decide⟩

/-- C3 amended: phone verdicts carry detail null, while email verdicts
carry the email validator boolean together with its diagnostic message
as detail; the message is propagated, not discarded. -/
theorem email_phone_detail_propagation (now : PyDate) (record : PyRecord)
    (fv : String × FieldVerdict) (hmem : fv ∈ validate_record now record) :
    (fv.1 = "phone" →
       ∃ v, ("phone", v) ∈ record
         ∧ fv.2 = ⟨PyValid.b (validate_phone v), PyDetail.none⟩)
    ∧ (fv.1 = "email" →
       ∃ v, ("email", v) ∈ record
         ∧ fv.2 = ⟨PyValid.b (validate_email v).1, PyDetail.msg (validate_email v).2⟩) := by
  obtain ⟨a, hmem2, hsome⟩ := List.mem_filterMap.mp hmem
  obtain ⟨a1, a2⟩ := a
  simp only at hsome
  by_cases hpw : a1 = "password"
  · subst hpw
    rw [if_pos (by simp)] at hsome
    injection hsome with hfv
    subst hfv
    exact ⟨fun habs => by simp at habs, fun habs => by simp at habs⟩
  · rw [if_neg (by simpa using hpw)] at hsome
    by_cases hem : a1 = "email"
    · subst hem
      rw [if_pos (by simp)] at hsome
      injection hsome with hfv
      subst hfv
      exact ⟨fun habs => by simp at habs, fun _ => ⟨a2, hmem2, rfl⟩⟩
    · rw [if_neg (by simpa using hem)] at hsome
      by_cases hdt : a1 = "date"
      · subst hdt
        rw [if_pos (by simp)] at hsome
        injection hsome with hfv
        subst hfv
        exact ⟨fun habs => by simp at habs, fun habs => by simp at habs⟩
      · rw [if_neg (by simpa using hdt)] at hsome
        by_cases hph : a1 = "phone"
        · subst hph
          rw [if_pos (by simp)] at hsome
          injection hsome with hfv
          subst hfv
          exact ⟨fun _ => ⟨a2, hmem2, rfl⟩, fun habs => by simp at habs⟩
        · rw [if_neg (by simpa using hph)] at hsome
          exact absurd hsome (by simp)

/-- Witness for the C3 amended theorem at a concrete record. -/
theorem email_phone_detail_propagation_witness :
    ∃ v, (("email", v) : String × String) ∈ ([("email", "x@y.zz")] : PyRecord)
      ∧ (("email",
            (⟨PyValid.b (validate_email "x@y.zz").1,
              PyDetail.msg (validate_email "x@y.zz").2⟩ : FieldVerdict)) :
            String × FieldVerdict).2
        = ⟨PyValid.b (validate_email v).1, PyDetail.msg (validate_email v).2⟩ :=
  (email_phone_detail_propagation ⟨2026, 10, 12⟩ [("email", "x@y.zz")]
    ("email", ⟨PyValid.b (validate_email "x@y.zz").1,
               PyDetail.msg (validate_email "x@y.zz").2⟩) (by decide)).2 rfl

/-- C4: the password score equals 25 for the length check plus 75/4
per character-class check passed minus 30 for a common pattern, with
no clamping, and checks_passed counts exactly the four class checks
with total_checks 4; on the input 123456 the score is negative. -/
theorem password_score_formula (p : String) (m : ℕ) :
    (validate_password p m).score
        = (if m ≤ p.length then (25 : ℚ) else 0)
          + (75 / 4)
            * (((if has_uppercase p then 1 else 0) + (if has_lowercase p then 1 else 0)
                + (if has_digit p then 1 else 0) + (if has_special p then 1 else 0) : ℕ) : ℚ)
          - (if has_common_pattern p then (30 : ℚ) else 0)
    ∧ (validate_password p m).checks_passed
        = (if has_uppercase p then 1 else 0) + (if has_lowercase p then 1 else 0)
          + (if has_digit p then 1 else 0) + (if has_special p then 1 else 0)
    ∧ (validate_password p m).total_checks = 4
    ∧ (validate_password "123456" 8).score < 0 := by
  refine ⟨?_, rfl, rfl, ?_⟩
  · simp only [validate_password]
    split_ifs <;> push_cast <;> ring
  · have h1 : has_uppercase "123456" = false := by decide
    have h2 : has_lowercase "123456" = false := by decide
    have h3 : has_digit "123456" = true := by decide
    have h4 : has_special "123456" = false := by decide
    have h5 : has_common_pattern "123456" = true := by decide
    have h6 : ¬ (8 ≤ ("123456" : String).length) := by decide
    simp only [validate_password, h1, h2, h3, h4, h5, if_neg h6, if_true, if_false,
      Bool.false_eq_true, Bool.true_eq_false]
    norm_num

/-- C5: the rating is Excellent, Good, Fair or Weak exactly on the
bands cut by the thresholds 90, 70 and 50 evaluated high to low, and
the record validator deems a password field valid exactly when the
score is at least 50, attaching the full score report as detail. -/
theorem password_rating_thresholds (p : String) (m : ℕ) (now : PyDate) :
    ((validate_password p m).rating = "Excellent" ↔ 90 ≤ (validate_password p m).score)
    ∧ ((validate_password p m).rating = "Good"
        ↔ 70 ≤ (validate_password p m).score ∧ (validate_password p m).score < 90)
    ∧ ((validate_password p m).rating = "Fair"
        ↔ 50 ≤ (validate_password p m).score ∧ (validate_password p m).score < 70)
    ∧ ((validate_password p m).rating = "Weak" ↔ (validate_password p m).score < 50)
    ∧ validate_record now [("password", p)] =
        [("password", ⟨PyValid.b (decide ((50 : ℚ) ≤ (validate_password p 8).score)),
                       PyDetail.report (validate_password p 8)⟩)] := by
  have h : (validate_password p m).rating = ratingOf ((validate_password p m).score) := rfl
  rw [h]
  obtain ⟨c1, c2, c3, c4⟩ := ratingOf_cases ((validate_password p m).score)
  exact ⟨c1, c2, c3, c4, rfl⟩

/-- C9: each field validator is total with its declared result shape:
the email validator returns one of its three literal verdicts, the
date validator returns false exactly together with no parsed date, the
phone validator returns a boolean, and the password scorer reports
four total checks with at most four passed. -/
theorem validators_total_shapes (s : String) (now : PyDate) :
    (validate_email s = (false, "Invalid email format")
       ∨ validate_email s = (false, "Email appears suspicious")
       ∨ validate_email s = (true, "Valid email"))
    ∧ ((validate_date now s).1 = false ↔ (validate_date now s).2 = Option.none)
    ∧ (validate_phone s = true ∨ validate_phone s = false)
    ∧ (validate_password s 8).total_checks = 4
    ∧ (validate_password s 8).checks_passed ≤ 4 := by
  refine ⟨?_, ?_, ?_, rfl, ?_⟩
  · unfold validate_email
    by_cases h1 : emailRegexMatchL s.data = true
    · by_cases h2 : emailSuspicious s = true
      · rw [if_pos h1, if_pos h2]
        right; left; rfl
      · rw [if_pos h1, if_neg h2]
        right; right; rfl
    · rw [if_neg h1]
      left; rfl
  · unfold validate_date
    rcases hp : parseDateStr s.data with _ | d
    · simp
    · dsimp only
      by_cases hf : dateAfter d now = true
      · rw [if_pos hf]; simp
      · rw [if_neg hf]; simp
  · exact Bool.eq_false_or_eq_true (validate_phone s)
  · have h : (validate_password s 8).checks_passed
        = (if has_uppercase s then 1 else 0) + (if has_lowercase s then 1 else 0)
          + (if has_digit s then 1 else 0) + (if has_special s then 1 else 0) := rfl
    rw [h]
    split_ifs <;> omega

/-- C6 counterexample: a string of the specified shape followed by a
trailing newline is not of the shape, yet validate_email accepts it
because the dollar anchor of the Python regex matches before a final
newline, so it does not return the invalid-format verdict. -/
theorem email_trailing_newline_accepted :
    validate_email "a@b.co\n" = (true, "Valid email")
    ∧ ¬ EmailShape ("a@b.co\n".data) := by
  constructor
  · decide
  · intro h
    have hmem : ('\n' : Char) ∈ "a@b.co\n".data := by decide
    have hchar := emailShape_chars h '\n' hmem
    exact absurd hchar (by decide)

/-- C6 amended: validate_email returns the invalid-format verdict
exactly when the string is neither of the shape local at-sign domain
dot tld nor such a shape followed by one trailing newline, the
Python dollar-anchor allowance; among accepted strings it flags as
suspicious exactly those whose lowercased form contains one of the
four suspicious substrings, as the flagged example latest at x dot com
shows, and returns the valid verdict otherwise. -/
theorem validate_email_cases (s : String) :
    (validate_email s = (false, "Invalid email format")
        ↔ ¬ (EmailShape s.data ∨ ∃ cs2, s.data = cs2 ++ ['\n'] ∧ EmailShape cs2))
    ∧ (validate_email s = (false, "Email appears suspicious")
        ↔ ((EmailShape s.data ∨ ∃ cs2, s.data = cs2 ++ ['\n'] ∧ EmailShape cs2)
            ∧ emailSuspicious s = true))
    ∧ (validate_email s = (true, "Valid email")
        ↔ ((EmailShape s.data ∨ ∃ cs2, s.data = cs2 ++ ['\n'] ∧ EmailShape cs2)
            ∧ emailSuspicious s = false))
    ∧ validate_email "latest@x.com" = (false, "Email appears suspicious") := by
  have hiff := emailRegexMatchL_iff s.data
  refine ⟨?_, ?_, ?_, by decide⟩
  · rw [← hiff]
    unfold validate_email
    by_cases h1 : emailRegexMatchL s.data = true
    · rw [if_pos h1]
      by_cases h2 : emailSuspicious s = true
      · rw [if_pos h2]; simp [h1]
      · rw [if_neg h2]; simp [h1]
    · rw [if_neg h1]; simp [h1]
  · rw [← hiff]
    unfold validate_email
    by_cases h1 : emailRegexMatchL s.data = true
    · rw [if_pos h1]
      by_cases h2 : emailSuspicious s = true
      · rw [if_pos h2]; simp [h1, h2]
      · rw [if_neg h2]
        have h2f : emailSuspicious s = false := by simpa using h2
        simp [h1, h2f]
    · rw [if_neg h1]; simp [h1]
  · rw [← hiff]
    unfold validate_email
    by_cases h1 : emailRegexMatchL s.data = true
    · rw [if_pos h1]
      by_cases h2 : emailSuspicious s = true
      · rw [if_pos h2]; simp [h1, h2]
      · rw [if_neg h2]
        have h2f : emailSuspicious s = false := by simpa using h2
        simp [h1, h2f]
    · rw [if_neg h1]; simp [h1]

/-- C7: statistics accumulate across repeated process_batch calls on
the same threaded state, so batches of sizes 3 and 2 from a fresh
state give total 5; and get_statistics carries pass_rate equal to
passed over total times 100 exactly when total is positive, omitting
it exactly when total is zero. -/
theorem stats_accumulation_and_pass_rate (now : PyDate) (s : Stats)
    (b1 b2 : List PyRecord) (h1 : b1.length = 3) (h2 : b2.length = 2) :
    (process_batch now (process_batch now initStats b1).1 b2).1.total = 5
    ∧ ((get_statistics s).pass_rate = some ((s.passed : ℚ) / (s.total : ℚ) * 100)
        ↔ 0 < s.total)
    ∧ ((get_statistics s).pass_rate = Option.none ↔ s.total = 0) := by
  refine ⟨?_, ?_, ?_⟩
  · have t1 := (process_batch_stats_rel now b1 initStats).1
    have t2 := (process_batch_stats_rel now b2 (process_batch now initStats b1).1).1
    rw [t2, t1, h1, h2]
    rfl
  · simp only [get_statistics]
    split_ifs with hcond
    · have h0 : s.total = 0 := by simpa using hcond
      constructor
      · intro habs; simp at habs
      · intro hlt; exact absurd hlt (by omega)
    · have h0 : s.total ≠ 0 := by simpa using hcond
      simp [Nat.pos_of_ne_zero h0]
  · simp only [get_statistics]
    split_ifs with hcond
    · have h0 : s.total = 0 := by simpa using hcond
      simp [h0]
    · have h0 : s.total ≠ 0 := by simpa using hcond
      simp [h0]

/-- Witness for C7 at concrete batches of sizes 3 and 2 and concrete
statistics with total 2. -/
theorem stats_accumulation_and_pass_rate_witness :
    (process_batch ⟨2026, 10, 12⟩
        (process_batch ⟨2026, 10, 12⟩ initStats [[], [], []]).1 [[], []]).1.total = 5
    ∧ ((get_statistics ⟨2, 1, 1⟩).pass_rate
        = some ((((⟨2, 1, 1⟩ : Stats).passed : ℚ) / ((⟨2, 1, 1⟩ : Stats).total : ℚ)) * 100)
        ↔ 0 < (⟨2, 1, 1⟩ : Stats).total)
    ∧ ((get_statistics ⟨2, 1, 1⟩).pass_rate = Option.none
        ↔ (⟨2, 1, 1⟩ : Stats).total = 0) :=
  stats_accumulation_and_pass_rate ⟨2026, 10, 12⟩ ⟨2, 1, 1⟩ [[], [], []] [[], []] rfl rfl

/-- C10: from a state whose total splits into passed plus failed, one
process_batch call preserves that identity, raises total by exactly
the batch length, keeps every counter non-negative, and never lowers
passed or failed. -/
theorem process_batch_stats_invariant (now : PyDate) (s : Stats) (data : List PyRecord)
    (h : s.total = s.passed + s.failed) :
    (process_batch now s data).1.total
        = (process_batch now s data).1.passed + (process_batch now s data).1.failed
    ∧ (process_batch now s data).1.total = s.total + data.length
    ∧ 0 ≤ (process_batch now s data).1.total
    ∧ 0 ≤ (process_batch now s data).1.passed
    ∧ 0 ≤ (process_batch now s data).1.failed
    ∧ s.passed ≤ (process_batch now s data).1.passed
    ∧ s.failed ≤ (process_batch now s data).1.failed := by
  obtain ⟨h1, h2, h3, h4⟩ := process_batch_stats_rel now data s
  refine ⟨?_, h1, Nat.zero_le _, Nat.zero_le _, Nat.zero_le _, h3, h4⟩
  rw [h1, h2, h]

/-- Witness for C10 at a concrete batch and the fresh statistics. -/
theorem process_batch_stats_invariant_witness :
    (process_batch ⟨2026, 10, 12⟩ ⟨0, 0, 0⟩ [[("phone", "1234567890")]]).1.total
        = (process_batch ⟨2026, 10, 12⟩ ⟨0, 0, 0⟩ [[("phone", "1234567890")]]).1.passed
          + (process_batch ⟨2026, 10, 12⟩ ⟨0, 0, 0⟩ [[("phone", "1234567890")]]).1.failed
    ∧ (process_batch ⟨2026, 10, 12⟩ ⟨0, 0, 0⟩ [[("phone", "1234567890")]]).1.total
        = (⟨0, 0, 0⟩ : Stats).total + ([[("phone", "1234567890")]] : List PyRecord).length
    ∧ 0 ≤ (process_batch ⟨2026, 10, 12⟩ ⟨0, 0, 0⟩ [[("phone", "1234567890")]]).1.total
    ∧ 0 ≤ (process_batch ⟨2026, 10, 12⟩ ⟨0, 0, 0⟩ [[("phone", "1234567890")]]).1.passed
    ∧ 0 ≤ (process_batch ⟨2026, 10, 12⟩ ⟨0, 0, 0⟩ [[("phone", "1234567890")]]).1.failed
    ∧ (⟨0, 0, 0⟩ : Stats).passed
        ≤ (process_batch ⟨2026, 10, 12⟩ ⟨0, 0, 0⟩ [[("phone", "1234567890")]]).1.passed
    ∧ (⟨0, 0, 0⟩ : Stats).failed
        ≤ (process_batch ⟨2026, 10, 12⟩ ⟨0, 0, 0⟩ [[("phone", "1234567890")]]).1.failed :=
  process_batch_stats_invariant ⟨2026, 10, 12⟩ ⟨0, 0, 0⟩ [[("phone", "1234567890")]] rfl

/-- C8 counterexample: the claim says the histogram counts the whole
substring after the first at sign, but on an email with two at signs
the source counts only the segment up to the second at sign, so the
claimed key has count zero although the record contains an at sign. -/
theorem double_at_domain_counterexample :
    (detect_data_patterns [[("email", "a@b@c.com")]]).email_domains = [("b", 1)]
    ∧ specAfterFirstAt "a@b@c.com" = "b@c.com"
    ∧ histLookup (detect_data_patterns [[("email", "a@b@c.com")]]).email_domains "b@c.com" = 0
    ∧ emailHasAt "a@b@c.com" = true :=
  ⟨by decide, by decide, by decide, by decide⟩

/-- C8 amended: independently of validation, the summarizer collects
the raw password lengths in input order; its histogram counts, for
each record whose email contains an at sign, the segment strictly
between the first at sign and the next at sign or the end; and the
average, minimum and maximum over the length sequence are attached
exactly when the sequence is nonempty, the average being the rational
sum over the count and the bounds enclosing every collected length. -/
theorem detect_patterns_characterization (data : List PyRecord) :
    (detect_data_patterns data).password_lengths
        = data.filterMap (fun r => (r.lookup "password").map String.length)
    ∧ (∀ d : String,
        histLookup (detect_data_patterns data).email_domains d
          = data.countP (fun r =>
              match r.lookup "email" with
              | some e => emailHasAt e && (domainOfEmail e == d)
              | Option.none => false))
    ∧ ((detect_data_patterns data).password_stats = Option.none
        ↔ (detect_data_patterns data).password_lengths = [])
    ∧ (∀ l ls, (detect_data_patterns data).password_lengths = l :: ls →
        (detect_data_patterns data).password_stats
          = some ((((l :: ls).foldl (· + ·) 0 : ℕ) : ℚ) / (((l :: ls).length : ℕ) : ℚ),
                  ls.foldl Nat.min l, ls.foldl Nat.max l))
    ∧ (∀ q mn mx, (detect_data_patterns data).password_stats = some (q, mn, mx) →
        ∀ x ∈ (detect_data_patterns data).password_lengths, mn ≤ x ∧ x ≤ mx) := by
  rcases data with _ | ⟨r, rs⟩
  · refine ⟨rfl, fun d => rfl, by simp [detect_data_patterns], ?_, ?_⟩
    · intro l ls habs
      exact absurd habs (by simp [detect_data_patterns])
    · intro q mn mx habs
      exact absurd habs (by simp [detect_data_patterns])
  · have hform : detect_data_patterns (r :: rs)
        = ⟨(patternsCore ([], []) (r :: rs)).1, (patternsCore ([], []) (r :: rs)).2,
           (match (patternsCore ([], []) (r :: rs)).2 with
            | [] => Option.none
            | l :: ls =>
              some ((((l :: ls).foldl (· + ·) 0 : ℕ) : ℚ) / (((l :: ls).length : ℕ) : ℚ),
                    ls.foldl Nat.min l, ls.foldl Nat.max l)),
           (Option.none, Option.none)⟩ := rfl
    rw [hform]
    refine ⟨?_, ?_, ?_, ?_, ?_⟩
    · have hsnd := patternsCore_snd (r :: rs) ([], [])
      simpa using hsnd
    · intro d
      have hfst := patternsCore_fst (r :: rs) ([], []) d
      simpa [histLookup] using hfst
    · rcases hcore : (patternsCore ([], []) (r :: rs)).2 with _ | ⟨l, ls⟩ <;> simp [hcore]
    · intro l0 ls0 hlen
      dsimp only at hlen ⊢
      rw [hlen]
    · intro q mn mx hstats x hx
      dsimp only at hstats hx
      rcases hcore : (patternsCore ([], []) (r :: rs)).2 with _ | ⟨l, ls⟩
      · rw [hcore] at hstats; simp at hstats
      · rw [hcore] at hstats hx
        simp only [Option.some.injEq, Prod.mk.injEq] at hstats
        obtain ⟨hq, hmn, hmx⟩ := hstats
        subst hmn
        subst hmx
        exact ⟨foldl_min_le ls l x hx, le_foldl_max ls l x hx⟩

/-- Witness for C8 at the round-trip example of the specification:
password lengths 3 and 2 give the attached statistics. -/
theorem detect_patterns_characterization_witness :
    (detect_data_patterns [[("password", "abc")], [("password", "de")]]).password_stats
      = some (((((3 : ℕ) :: [2]).foldl (· + ·) 0 : ℕ) : ℚ)
                / ((((3 : ℕ) :: [2]).length : ℕ) : ℚ),
              [2].foldl Nat.min 3, [2].foldl Nat.max 3) :=
  (detect_patterns_characterization [[("password", "abc")], [("password", "de")]]).2.2.2.1
    3 [2] rfl

end DataValidator
